import Mathlib

set_option maxRecDepth 100000
set_option maxHeartbeats 2000000

/-!
Verification of the block-chaining / proof-of-work engine of the
"Blockchain Diary" application (`src/app.py`).

The Python source is shallowly embedded:
  * `hashlib.sha256(...).hexdigest()` is implemented bit-for-bit as
    `sha256_hex` over `Nat` arithmetic (words are `Nat` values kept below
    `2^32`, with explicit `% 2^32` where overflow matters);
  * `json.dumps(..., sort_keys=True, separators=(",", ":"))` on the
    concrete dictionary shapes used by the program is implemented by
    `header_string` / `entryJson` (keys emitted in sorted order, compact
    separators, `ensure_ascii` escaping);
  * wall-clock time (`time.time()`) is an external input and is passed
    explicitly as a `now : Nat` parameter;
  * the two unbounded `while True` loops (`mine`'s fallback phase and
    `make_genesis`) are given an explicit fuel parameter and return
    `Option` — `none` means the fuel ran out, `some` is a genuine return
    of the Python loop.
-/

/-! ## SHA-256 over Nat (words < 2^32) -/

def M32 : Nat := 4294967296

def add32 (a b : Nat) : Nat := (a + b) % M32

def xor32 (a b : Nat) : Nat := a ^^^ b

def and32 (a b : Nat) : Nat := a &&& b

def not32 (a : Nat) : Nat := a ^^^ 4294967295

def rotr32 (x n : Nat) : Nat :=
  ((x >>> n) ||| ((x % (1 <<< n)) <<< (32 - n))) % M32

def shr32 (x n : Nat) : Nat := x >>> n

def bsig0 (x : Nat) : Nat := xor32 (rotr32 x 2) (xor32 (rotr32 x 13) (rotr32 x 22))

def bsig1 (x : Nat) : Nat := xor32 (rotr32 x 6) (xor32 (rotr32 x 11) (rotr32 x 25))

def ssig0 (x : Nat) : Nat := xor32 (rotr32 x 7) (xor32 (rotr32 x 18) (shr32 x 3))

def ssig1 (x : Nat) : Nat := xor32 (rotr32 x 17) (xor32 (rotr32 x 19) (shr32 x 10))

def sha256K : List Nat :=
  [1116352408, 1899447441, 3049323471, 3921009573, 961987163, 1508970993,
   2453635748, 2870763221, 3624381080, 310598401, 607225278, 1426881987,
   1925078388, 2162078206, 2614888103, 3248222580, 3835390401, 4022224774,
   264347078, 604807628, 770255983, 1249150122, 1555081692, 1996064986,
   2554220882, 2821834349, 2952996808, 3210313671, 3336571891, 3584528711,
   113926993, 338241895, 666307205, 773529912, 1294757372, 1396182291,
   1695183700, 1986661051, 2177026350, 2456956037, 2730485921, 2820302411,
   3259730800, 3345764771, 3516065817, 3600352804, 4094571909, 275423344,
   430227734, 506948616, 659060556, 883997877, 958139571, 1322822218,
   1537002063, 1747873779, 1955562222, 2024104815, 2227730452, 2361852424,
   2428436474, 2756734187, 3204031479, 3329325298]

structure Digest where
  h0 : Nat
  h1 : Nat
  h2 : Nat
  h3 : Nat
  h4 : Nat
  h5 : Nat
  h6 : Nat
  h7 : Nat
deriving DecidableEq

def sha256H0 : Digest :=
  ⟨1779033703, 3144134277, 1013904242, 2773480762, 1359893119, 2600822924, 528734635, 1541459225⟩

structure Regs where
  a : Nat
  b : Nat
  c : Nat
  d : Nat
  e : Nat
  f : Nat
  g : Nat
  h : Nat
deriving DecidableEq

def sha256Round (r : Regs) (kw : Nat × Nat) : Regs :=
  let t1 := add32 r.h (add32 (bsig1 r.e) (add32 (xor32 (and32 r.e r.f) (and32 (not32 r.e) r.g)) (add32 kw.1 kw.2)))
  let t2 := add32 (bsig0 r.a) (xor32 (xor32 (and32 r.a r.b) (and32 r.a r.c)) (and32 r.b r.c))
  ⟨add32 t1 t2, r.a, r.b, r.c, add32 r.d t1, r.e, r.f, r.g⟩

/-- One step of the message-schedule extension: append
`w[i-16] + ssig0 w[i-15] + w[i-7] + ssig1 w[i-2]` (mod 2^32). -/
def schedStep (ws : List Nat) : List Nat :=
  ws ++ [add32 (ws.getD (ws.length - 16) 0)
          (add32 (ssig0 (ws.getD (ws.length - 15) 0))
            (add32 (ws.getD (ws.length - 7) 0) (ssig1 (ws.getD (ws.length - 2) 0))))]

def schedule (ws : List Nat) : List Nat :=
  (List.range 48).foldl (fun acc _ => schedStep acc) ws

def compressBlock (d : Digest) (ws : List Nat) : Digest :=
  let w := schedule ws
  let r := (List.zip sha256K w).foldl sha256Round ⟨d.h0, d.h1, d.h2, d.h3, d.h4, d.h5, d.h6, d.h7⟩
  ⟨add32 d.h0 r.a, add32 d.h1 r.b, add32 d.h2 r.c, add32 d.h3 r.d,
   add32 d.h4 r.e, add32 d.h5 r.f, add32 d.h6 r.g, add32 d.h7 r.h⟩

/-- Split the padded byte list into 16-word (64-byte) blocks, big-endian.
The first argument is fuel (call with the list length). -/
def toWords : List Nat → List Nat
  | b0 :: b1 :: b2 :: b3 :: rest => (((b0 <<< 8 ||| b1) <<< 8 ||| b2) <<< 8 ||| b3) :: toWords rest
  | _ => []

def toBlocks : Nat → List Nat → List (List Nat)
  | 0, _ => []
  | _, [] => []
  | fuel + 1, bytes => toWords (bytes.take 64) :: toBlocks fuel (bytes.drop 64)

/-- SHA-256 padding: append 0x80, zero bytes to 56 mod 64, then the
64-bit big-endian bit length of the original message. -/
def sha256Pad (bytes : List Nat) : List Nat :=
  let len := bytes.length
  let zeros := (119 - len % 64) % 64
  let bits := 8 * len
  bytes ++ [0x80] ++ List.replicate zeros 0 ++
    [(bits >>> 56) % 256, (bits >>> 48) % 256, (bits >>> 40) % 256, (bits >>> 32) % 256,
     (bits >>> 24) % 256, (bits >>> 16) % 256, (bits >>> 8) % 256, bits % 256]

def sha256Digest (bytes : List Nat) : Digest :=
  let padded := sha256Pad bytes
  (toBlocks padded.length padded).foldl compressBlock sha256H0

def hexChar (n : Nat) : Char :=
  "0123456789abcdef".data.getD n '0'

/-- Lowercase hexadecimal rendering of one 32-bit word, 8 characters. -/
def wordHex (w : Nat) : List Char :=
  [hexChar ((w >>> 28) % 16), hexChar ((w >>> 24) % 16), hexChar ((w >>> 20) % 16),
   hexChar ((w >>> 16) % 16), hexChar ((w >>> 12) % 16), hexChar ((w >>> 8) % 16),
   hexChar ((w >>> 4) % 16), hexChar (w % 16)]

def digestHex (d : Digest) : String :=
  ⟨wordHex d.h0 ++ wordHex d.h1 ++ wordHex d.h2 ++ wordHex d.h3 ++
   wordHex d.h4 ++ wordHex d.h5 ++ wordHex d.h6 ++ wordHex d.h7⟩

/-- UTF-8 encoding of one character, as a list of byte values. -/
def utf8Char (c : Char) : List Nat :=
  let n := c.toNat
  if n < 0x80 then [n]
  else if n < 0x800 then [0xC0 ||| (n >>> 6), 0x80 ||| (n &&& 0x3F)]
  else if n < 0x10000 then
    [0xE0 ||| (n >>> 12), 0x80 ||| ((n >>> 6) &&& 0x3F), 0x80 ||| (n &&& 0x3F)]
  else
    [0xF0 ||| (n >>> 18), 0x80 ||| ((n >>> 12) &&& 0x3F),
     0x80 ||| ((n >>> 6) &&& 0x3F), 0x80 ||| (n &&& 0x3F)]

def strBytes (s : String) : List Nat :=
  (s.data.map utf8Char).flatten

/-- Embeds `sha256_hex` of app.py: SHA-256 of the UTF-8 encoding,
rendered as 64 lowercase hex characters. -/
def sha256_hex (s : String) : String :=
  digestHex (sha256Digest (strBytes s))

/-! ## JSON serialization (`json.dumps` with `sort_keys=True`,
`separators=(",", ":")`, default `ensure_ascii=True`), restricted to the
dictionary shapes that `header_hash` actually serializes. -/

def hex4 (n : Nat) : List Char :=
  [hexChar ((n >>> 12) % 16), hexChar ((n >>> 8) % 16), hexChar ((n >>> 4) % 16), hexChar (n % 16)]

/-- `ensure_ascii` escaping of one character inside a JSON string literal:
`"` and `\` get a backslash, the named control escapes are used for
\b \t \n \f \r, other characters outside the printable ASCII range
0x20–0x7E become `\uXXXX` (a surrogate pair beyond the BMP). -/
def jsonEscChar (c : Char) : List Char :=
  let n := c.toNat
  if c = '"' then ['\\', '"']
  else if c = '\\' then ['\\', '\\']
  else if n = 8 then ['\\', 'b']
  else if n = 9 then ['\\', 't']
  else if n = 10 then ['\\', 'n']
  else if n = 12 then ['\\', 'f']
  else if n = 13 then ['\\', 'r']
  else if n < 0x20 then '\\' :: 'u' :: hex4 n
  else if n < 0x7F then [c]
  else if n < 0x10000 then '\\' :: 'u' :: hex4 n
  else
    ('\\' :: 'u' :: hex4 (0xD800 + ((n - 0x10000) >>> 10))) ++
    ('\\' :: 'u' :: hex4 (0xDC00 + ((n - 0x10000) &&& 0x3FF)))

def jsonString (s : String) : String :=
  ⟨'"' :: (s.data.map jsonEscChar).flatten ++ ['"']⟩

/-- One diary entry: the dictionary
`\x7b"author": ..., "text": ..., "ts": ...\x7d` used as a block payload. -/
structure Entry where
  author : String
  text : String
  ts : Nat
deriving DecidableEq

/-- `json.dumps` of an entry dictionary: keys in sorted order
(author < text < ts), compact separators. -/
def entryJson (e : Entry) : String :=
  "\x7b\"author\":" ++ jsonString e.author ++ ",\"text\":" ++ jsonString e.text ++
    ",\"ts\":" ++ toString e.ts ++ "\x7d"

/-- The canonical serialization built inside `header_hash` of app.py:
`json.dumps(\x7b"index": ..., "ts": ..., "prev": ..., "nonce": ...,
"entry": ...\x7d, sort_keys=True, separators=(",", ":"))`; the sorted key
order is entry < index < nonce < prev < ts. -/
def header_string (index ts : Nat) (prev : String) (nonce : Nat) (entry : Entry) : String :=
  "\x7b\"entry\":" ++ entryJson entry ++ ",\"index\":" ++ toString index ++
    ",\"nonce\":" ++ toString nonce ++ ",\"prev\":" ++ jsonString prev ++
    ",\"ts\":" ++ toString ts ++ "\x7d"

/-- Embeds `header_hash` of app.py. -/
def header_hash (index ts : Nat) (prev : String) (nonce : Nat) (entry : Entry) : String :=
  sha256_hex (header_string index ts prev nonce entry)

/-! ## Block, difficulty, chain validation -/

def DIFFICULTY_ZEROS : Nat := 3

/-- Embeds the `Block` dataclass of app.py. -/
structure Block where
  index : Nat
  ts : Nat
  prev : String
  entry : Entry
  nonce : Nat := 0
deriving DecidableEq

/-- Embeds `Block.hash`: recomputed from the current fields on every call,
never cached. -/
def Block.hash (b : Block) : String :=
  header_hash b.index b.ts b.prev b.nonce b.entry

/-- `"0" * n` of Python. -/
def zeroString (n : Nat) : String :=
  ⟨List.replicate n '0'⟩

/-- Python `str.startswith`. -/
def strStartsWith (s pre : String) : Bool :=
  pre.data.isPrefixOf s.data

/-! ## Miner -/

/-- The tail of one unsuccessful iteration of either mining loop:
`block.nonce += 1`, then `if block.nonce % 100_000 == 0: block.ts =
int(time.time())` (wall-clock time frozen to the parameter `now`). -/
def mineStep (now : Nat) (b : Block) : Block :=
  let b' := { b with nonce := b.nonce + 1 }
  if b'.nonce % 100000 = 0 then { b' with ts := now } else b'

/-- The first, bounded loop of `mine` (`while iters < max_iters`), with the
remaining iteration budget as the recursion measure.  Returns the final
block state together with `some hash` on success, `none` when the budget
is exhausted. -/
def minePhase1 (now : Nat) (target : String) : Nat → Block → Block × Option String
  | 0, b => (b, none)
  | k + 1, b =>
    let h := b.hash
    if strStartsWith h target then (b, some h)
    else minePhase1 now target k (mineStep now b)

/-- The second, unbounded loop of `mine` (`while True` at the relaxed
target), fuelled. -/
def minePhase2 (now : Nat) (target : String) : Nat → Block → Option (Block × String)
  | 0, _ => none
  | k + 1, b =>
    let h := b.hash
    if strStartsWith h target then some (b, h)
    else minePhase2 now target k (mineStep now b)

/-- Embeds `mine(block, zeros, max_iters)` of app.py: reset the nonce,
search up to `max_iters` iterations at `"0" * zeros`, then retry without
bound at `"0" * max(zeros - 1, 1)`.  The result carries the final
(mutated) block alongside the returned hash; `none` only means the fuel
for the unbounded second loop ran out. -/
def mine (b : Block) (zeros : Nat) (maxIters : Nat) (now fuel : Nat) : Option (Block × String) :=
  match minePhase1 now (zeroString zeros) maxIters { b with nonce := 0 } with
  | (b1, some h) => some (b1, h)
  | (b1, none) => minePhase2 now (zeroString (max (zeros - 1) 1)) fuel b1

/-! ## Genesis factory -/

/-- The `while True` loop of `make_genesis`, fuelled: no timestamp
refresh, the nonce just climbs until the hash starts with `"00"`. -/
def genesisLoop : Nat → Block → Option Block
  | 0, _ => none
  | k + 1, g =>
    if strStartsWith g.hash (zeroString 2) then some g
    else genesisLoop k { g with nonce := g.nonce + 1 }

/-- Embeds `make_genesis()` of app.py; both `int(time.time())` calls are
frozen to `now`. -/
def make_genesis (now fuel : Nat) : Option Block :=
  genesisLoop fuel
    { index := 0, ts := now, prev := zeroString 64,
      entry := { author := "system", text := "genesis", ts := now }, nonce := 0 }

/-! ## Chain validator -/

/-- The `i > 0` arm of the validation loop: linkage to the previous
block's recomputed hash, and the fixed `DIFFICULTY_ZEROS` target. -/
def blockOk (p b : Block) : Bool :=
  (b.prev == p.hash) && strStartsWith b.hash (zeroString DIFFICULTY_ZEROS)

/-- The validation loop from position 1 on, threading the previous
block; `&&` gives the loop's short-circuit `return False`. -/
def restOk : Block → List Block → Bool
  | _, [] => true
  | p, b :: rest => blockOk p b && restOk b rest

/-- Embeds `valid_chain` of app.py: an empty chain is invalid; position 0
must carry the 64-zero sentinel and a hash starting `"00"`; every later
block must link to its predecessor's recomputed hash and start with
`"0" * DIFFICULTY_ZEROS`. -/
def valid_chain (chain : List Block) : Bool :=
  match chain with
  | [] => false
  | g :: rest =>
    (g.prev == zeroString 64) && strStartsWith g.hash (zeroString 2) && restOk g rest

/-! ## The Add-button handler (`append_entry` of the spec) -/

/-- Python `str.strip()` whitespace set (`Py_UNICODE_ISSPACE`). -/
def isPySpace (c : Char) : Bool :=
  let n := c.toNat
  (9 ≤ n && n ≤ 13) || (28 ≤ n && n ≤ 31) || n == 32 || n == 133 || n == 160 ||
    n == 5760 || (8192 ≤ n && n ≤ 8202) || n == 8232 || n == 8233 || n == 8239 ||
    n == 8287 || n == 12288

/-- Python `str.strip()`: drop leading and trailing whitespace. -/
def pyStrip (s : String) : String :=
  ⟨((s.data.dropWhile isPySpace).reverse.dropWhile isPySpace).reverse⟩

/-- Python `a or b` on strings: `b` when `a` is the empty string. -/
def pyOr (a b : String) : String :=
  if a = "" then b else a

/-- Embeds the Add-button handler of app.py (lines 154–164): reject
empty/whitespace text before doing any hashing or mining; otherwise build
the candidate from the tip's recomputed hash, mine it at the
user-selected difficulty `dz` with the default budget of 5,000,000
iterations, and append.  Both `int(time.time())` calls are frozen to
`now`; `none` arises from rejection or from phase-2 fuel exhaustion. -/
def append_entry (chain : List Block) (author text : String) (dz : Nat) (now fuel : Nat)
    (hne : chain ≠ []) : Option (List Block × Block) :=
  if pyStrip text ≠ "" then
    match mine
        { index := chain.length, ts := now, prev := (chain.getLast hne).hash,
          entry := { author := pyStrip (pyOr author "Student"), text := pyStrip text, ts := now },
          nonce := 0 }
        dz 5000000 now fuel with
    | some (blk2, _) => some (chain ++ [blk2], blk2)
    | none => none
  else none

/-! ## Search-state iteration and termination predicate -/

/-- `k` unsuccessful mining iterations from `b`. -/
def iterStep (now : Nat) : Nat → Block → Block
  | 0, b => b
  | k + 1, b => iterStep now k (mineStep now b)

/-- `mine` terminates on this input: some fuel for the unbounded second
loop makes it return. -/
def MineTerminates (b : Block) (zeros maxIters now : Nat) : Prop :=
  ∃ fuel, (mine b zeros maxIters now fuel).isSome = true

/-! ## Concrete instances (timestamps are possible `int(time.time())`
values; the nonces are the ones the mining loops actually find) -/

/-- A session start time at which `make_genesis` succeeds at nonce 0. -/
def tG : Nat := 1760000291

/-- The genesis block produced at `tG`. -/
def gB : Block :=
  { index := 0, ts := tG, prev := zeroString 64,
    entry := { author := "system", text := "genesis", ts := tG }, nonce := 0 }

/-- The hash of `gB`. -/
def gBhash : String := "00a52ea5c3fbbe17437a2387bfb3b19b2f6c17d7c654490fefeca5f4f9a521a0"

/-- Wall-clock second of the "Ada" append in the C1 scenario. -/
def tAda : Nat := 1760000027

/-- The candidate block the Add handler builds for the C1 scenario. -/
def adaCand : Block :=
  { index := 1, ts := tAda, prev := gBhash,
    entry := { author := "Ada", text := "Learned proof of work", ts := tAda }, nonce := 0 }

/-- The mined C1 block: the difficulty-2 search misses at nonce 0 and
stops at nonce 1. -/
def adaB : Block := { adaCand with nonce := 1 }

/-- The hash `mine` returns for `adaB`: two leading zeros but not
three. -/
def adaHash : String := "00ed23d9f5220e5616f3c4f7392a95ee44e3c3470d554f02f84e6df71d3361e0"

/-- A manually constructed block with index 5 whose hash happens to meet
the genesis target at nonce 0 (for the C2 counterexample). -/
def b5 : Block :=
  { index := 5, ts := 1760000077, prev := zeroString 64,
    entry := { author := "x", text := "y", ts := 1760000077 }, nonce := 0 }

def b5hash : String := "00d7efd64a691f1bb69ca61f25b36ee3edefc3f333722e7232160bdf398dce6c"

/-- A generic concrete block used by the mining witnesses; its nonce-0
hash starts with a single zero. -/
def tCb : Nat := 1760000022

def cb : Block :=
  { index := 2, ts := tCb, prev := "ab", entry := { author := "w", text := "demo", ts := tCb }, nonce := 0 }

def cbHash : String := "0d4b1e3ddb6b244c618517a043814af11a022ac22e397136ef91500a4b190349"

/-- Wall-clock second of the empty-author append in the C9 witness. -/
def tStu : Nat := 1760000006

/-- The candidate of the C9 witness append (author defaulted to
"Student", difficulty 1). -/
def stuCand : Block :=
  { index := 1, ts := tStu, prev := gBhash,
    entry := { author := "Student", text := "hello", ts := tStu }, nonce := 0 }

/-- The mined C9 witness block: miss at nonce 0, hit at nonce 1. -/
def stuB : Block := { stuCand with nonce := 1 }

def stuHash : String := "00af12540f339a416be272d987a84b1909c9a44e23a9044d10a2f1085cf876c2"

/-! ## Sanity anchors for the hash embedding -/

/-- SHA-256 test vector, checking the embedding of the digest against the
published value for "abc". -/
theorem sha256_abc : sha256_hex "abc" = "ba7816bf8f01cfea414140de5dae2223b00361a396177a9cb410ff61f20015ad" := by
  decide

/-- Cross-check of the header serialization and hash against the genesis
header produced by the Python reference at timestamp 1760000291. -/
theorem header_hash_genesis_check :
    header_string 0 1760000291 (zeroString 64) 0 ⟨"system", "genesis", 1760000291⟩ =
      "\x7b\"entry\":\x7b\"author\":\"system\",\"text\":\"genesis\",\"ts\":1760000291\x7d,\"index\":0,\"nonce\":0,\"prev\":\"0000000000000000000000000000000000000000000000000000000000000000\",\"ts\":1760000291\x7d" ∧
    header_hash 0 1760000291 (zeroString 64) 0 ⟨"system", "genesis", 1760000291⟩ =
      "00a52ea5c3fbbe17437a2387bfb3b19b2f6c17d7c654490fefeca5f4f9a521a0" := by
  constructor
  · decide
  · decide

/-! ## Structural lemmas about the mining loops -/

theorem mineStep_frame (now : Nat) (b : Block) :
    (mineStep now b).index = b.index ∧ (mineStep now b).prev = b.prev ∧
      (mineStep now b).entry = b.entry := by
  simp only [mineStep]
  split <;> exact ⟨rfl, rfl, rfl⟩

theorem iterStep_frame (now : Nat) : ∀ (k : Nat) (b : Block),
    (iterStep now k b).index = b.index ∧ (iterStep now k b).prev = b.prev ∧
      (iterStep now k b).entry = b.entry := by
  intro k
  induction k with
  | zero => intro b; exact ⟨rfl, rfl, rfl⟩
  | succ k ih =>
    intro b
    have h1 := mineStep_frame now b
    have h2 := ih (mineStep now b)
    simp only [iterStep]
    exact ⟨h2.1.trans h1.1, h2.2.1.trans h1.2.1, h2.2.2.trans h1.2.2⟩

theorem iterStep_add (now : Nat) : ∀ (k j : Nat) (b : Block),
    iterStep now j (iterStep now k b) = iterStep now (k + j) b := by
  intro k
  induction k with
  | zero => intro j b; simp [iterStep]
  | succ k ih =>
    intro j b
    have : k + 1 + j = (k + j) + 1 := by omega
    rw [this]
    simp only [iterStep]
    exact ih j (mineStep now b)

theorem minePhase1_found (now : Nat) (t : String) (k : Nat) (b : Block)
    (h : strStartsWith b.hash t = true) :
    minePhase1 now t (k + 1) b = (b, some b.hash) := by
  simp [minePhase1, h]

theorem minePhase1_miss (now : Nat) (t : String) (k : Nat) (b : Block)
    (h : strStartsWith b.hash t = false) :
    minePhase1 now t (k + 1) b = minePhase1 now t k (mineStep now b) := by
  simp [minePhase1, h]

theorem minePhase1_some_spec (now : Nat) (t : String) : ∀ (k : Nat) (b b' : Block) (h : String),
    minePhase1 now t k b = (b', some h) →
    h = b'.hash ∧ strStartsWith b'.hash t = true := by
  intro k
  induction k with
  | zero =>
    intro b b' h hEq
    simp [minePhase1] at hEq
  | succ k ih =>
    intro b b' h hEq
    cases hc : strStartsWith b.hash t with
    | true =>
      rw [minePhase1_found now t k b hc, Prod.mk.injEq] at hEq
      obtain ⟨rfl, hh⟩ := hEq
      cases hh
      exact ⟨rfl, hc⟩
    | false =>
      rw [minePhase1_miss now t k b hc] at hEq
      exact ih _ _ _ hEq

theorem minePhase1_none_iter (now : Nat) (t : String) : ∀ (k : Nat) (b b' : Block),
    minePhase1 now t k b = (b', none) → b' = iterStep now k b := by
  intro k
  induction k with
  | zero =>
    intro b b' hEq
    simp [minePhase1] at hEq
    simp [iterStep, hEq]
  | succ k ih =>
    intro b b' hEq
    cases hc : strStartsWith b.hash t with
    | true => rw [minePhase1_found now t k b hc, Prod.mk.injEq] at hEq; exact absurd hEq.2 (by simp)
    | false =>
      rw [minePhase1_miss now t k b hc] at hEq
      simp only [iterStep]
      exact ih _ _ hEq

theorem minePhase1_some_iter (now : Nat) (t : String) : ∀ (k : Nat) (b b' : Block) (h : String),
    minePhase1 now t k b = (b', some h) → ∃ j, b' = iterStep now j b := by
  intro k
  induction k with
  | zero =>
    intro b b' h hEq
    simp [minePhase1] at hEq
  | succ k ih =>
    intro b b' h hEq
    cases hc : strStartsWith b.hash t with
    | true =>
      rw [minePhase1_found now t k b hc, Prod.mk.injEq] at hEq
      exact ⟨0, hEq.1.symm⟩
    | false =>
      rw [minePhase1_miss now t k b hc] at hEq
      obtain ⟨j, hj⟩ := ih _ _ _ hEq
      exact ⟨j + 1, by rw [hj]; rfl⟩

theorem minePhase2_found (now : Nat) (t : String) (k : Nat) (b : Block)
    (h : strStartsWith b.hash t = true) :
    minePhase2 now t (k + 1) b = some (b, b.hash) := by
  simp [minePhase2, h]

theorem minePhase2_miss (now : Nat) (t : String) (k : Nat) (b : Block)
    (h : strStartsWith b.hash t = false) :
    minePhase2 now t (k + 1) b = minePhase2 now t k (mineStep now b) := by
  simp [minePhase2, h]

theorem minePhase2_some_spec (now : Nat) (t : String) : ∀ (k : Nat) (b b' : Block) (h : String),
    minePhase2 now t k b = some (b', h) →
    h = b'.hash ∧ strStartsWith b'.hash t = true := by
  intro k
  induction k with
  | zero =>
    intro b b' h hEq
    simp [minePhase2] at hEq
  | succ k ih =>
    intro b b' h hEq
    cases hc : strStartsWith b.hash t with
    | true =>
      rw [minePhase2_found now t k b hc, Option.some.injEq, Prod.mk.injEq] at hEq
      obtain ⟨rfl, hh⟩ := hEq
      cases hh
      exact ⟨rfl, hc⟩
    | false =>
      rw [minePhase2_miss now t k b hc] at hEq
      exact ih _ _ _ hEq

theorem minePhase2_some_iter (now : Nat) (t : String) : ∀ (k : Nat) (b b' : Block) (h : String),
    minePhase2 now t k b = some (b', h) → ∃ j, b' = iterStep now j b := by
  intro k
  induction k with
  | zero =>
    intro b b' h hEq
    simp [minePhase2] at hEq
  | succ k ih =>
    intro b b' h hEq
    cases hc : strStartsWith b.hash t with
    | true =>
      rw [minePhase2_found now t k b hc, Option.some.injEq, Prod.mk.injEq] at hEq
      exact ⟨0, hEq.1.symm⟩
    | false =>
      rw [minePhase2_miss now t k b hc] at hEq
      obtain ⟨j, hj⟩ := ih _ _ _ hEq
      exact ⟨j + 1, by rw [hj]; rfl⟩

theorem minePhase2_isSome_of_iter (now : Nat) (t : String) : ∀ (j : Nat) (b : Block),
    strStartsWith (iterStep now j b).hash t = true →
    ∃ f, (minePhase2 now t f b).isSome = true := by
  intro j
  induction j with
  | zero =>
    intro b hb
    exact ⟨1, by rw [minePhase2_found now t 0 b hb]; rfl⟩
  | succ j ih =>
    intro b hb
    cases hc : strStartsWith b.hash t with
    | true => exact ⟨1, by rw [minePhase2_found now t 0 b hc]; rfl⟩
    | false =>
      obtain ⟨f, hf⟩ := ih (mineStep now b) hb
      exact ⟨f + 1, by rw [minePhase2_miss now t f b hc]; exact hf⟩

/-! ## Hash output shape: 64 lowercase hex characters -/

theorem wordHex_length (w : Nat) : (wordHex w).length = 8 := rfl

theorem sha256_hex_length (s : String) : (sha256_hex s).data.length = 64 := by
  show (wordHex _ ++ wordHex _ ++ wordHex _ ++ wordHex _ ++
        wordHex _ ++ wordHex _ ++ wordHex _ ++ wordHex _).length = 64
  simp [List.length_append, wordHex_length]

theorem hash_length (b : Block) : (b.hash).data.length = 64 :=
  sha256_hex_length _

theorem hexChar_mem (n : Nat) :
    "0123456789abcdef".data.contains (hexChar (n % 16)) = true := by
  have hlt : n % 16 < 16 := Nat.mod_lt _ (by norm_num)
  have hall : ∀ m, m < 16 → "0123456789abcdef".data.contains (hexChar m) = true := by decide
  exact hall _ hlt

theorem wordHex_all (w : Nat) :
    (wordHex w).all (fun c => "0123456789abcdef".data.contains c) = true := by
  simp only [wordHex, List.all_cons, List.all_nil, Bool.and_eq_true]
  exact ⟨hexChar_mem _, hexChar_mem _, hexChar_mem _, hexChar_mem _,
         hexChar_mem _, hexChar_mem _, hexChar_mem _, ⟨hexChar_mem _, trivial⟩⟩

theorem sha256_hex_all (s : String) :
    ((sha256_hex s).data.all (fun c => "0123456789abcdef".data.contains c)) = true := by
  show ((wordHex _ ++ wordHex _ ++ wordHex _ ++ wordHex _ ++
         wordHex _ ++ wordHex _ ++ wordHex _ ++ wordHex _).all
           (fun c => "0123456789abcdef".data.contains c)) = true
  simp only [List.all_append, Bool.and_eq_true]
  exact ⟨⟨⟨⟨⟨⟨⟨wordHex_all _, wordHex_all _⟩, wordHex_all _⟩, wordHex_all _⟩,
    wordHex_all _⟩, wordHex_all _⟩, wordHex_all _⟩, wordHex_all _⟩

/-- A prefix check against a pattern longer than the string is false. -/
theorem isPrefixOf_length_le : ∀ (l1 l2 : List Char),
    l1.isPrefixOf l2 = true → l1.length ≤ l2.length := by
  intro l1
  induction l1 with
  | nil => intro l2 _; exact Nat.zero_le _
  | cons a as ih =>
    intro l2 hp
    cases l2 with
    | nil => simp [List.isPrefixOf] at hp
    | cons b bs =>
      rw [List.isPrefixOf_cons₂, Bool.and_eq_true] at hp
      exact Nat.succ_le_succ (ih bs hp.2)

theorem startsWith_false_of_long (b : Block) (t : String) (ht : 64 < t.data.length) :
    strStartsWith b.hash t = false := by
  cases hc : strStartsWith b.hash t with
  | false => rfl
  | true =>
    exfalso
    have hle := isPrefixOf_length_le t.data (b.hash).data hc
    rw [hash_length] at hle
    omega

/-! ## Behaviour of `mine` as a whole -/

/-- Whenever `mine` returns, the returned string is the mutated
candidate's recomputed hash, and it meets either the requested target or
the relaxed `max(zeros - 1, 1)` fallback target. -/
theorem mine_some_spec (b : Block) (zeros maxIters now fuel : Nat) (b' : Block) (h : String)
    (hEq : mine b zeros maxIters now fuel = some (b', h)) :
    h = b'.hash ∧
      (strStartsWith h (zeroString zeros) = true ∨
        strStartsWith h (zeroString (max (zeros - 1) 1)) = true) := by
  unfold mine at hEq
  cases hp : minePhase1 now (zeroString zeros) maxIters { b with nonce := 0 } with
  | mk b1 o =>
    cases o with
    | some h1 =>
      rw [hp, Option.some.injEq, Prod.mk.injEq] at hEq
      obtain ⟨rfl, rfl⟩ := hEq
      obtain ⟨hh, hpre⟩ := minePhase1_some_spec now _ _ _ _ _ hp
      exact ⟨hh, Or.inl (hh ▸ hpre)⟩
    | none =>
      rw [hp] at hEq
      obtain ⟨hh, hpre⟩ := minePhase2_some_spec now _ _ _ _ _ hEq
      exact ⟨hh, Or.inr (hh ▸ hpre)⟩

/-- `mine` only ever mutates the candidate's nonce and timestamp: index,
previous hash and payload entry are unchanged in the returned block. -/
theorem mine_frame (b : Block) (zeros maxIters now fuel : Nat) (b' : Block) (h : String)
    (hEq : mine b zeros maxIters now fuel = some (b', h)) :
    b'.index = b.index ∧ b'.prev = b.prev ∧ b'.entry = b.entry := by
  unfold mine at hEq
  cases hp : minePhase1 now (zeroString zeros) maxIters { b with nonce := 0 } with
  | mk b1 o =>
    cases o with
    | some h1 =>
      rw [hp, Option.some.injEq, Prod.mk.injEq] at hEq
      obtain ⟨rfl, rfl⟩ := hEq
      obtain ⟨j, hj⟩ := minePhase1_some_iter now _ _ _ _ _ hp
      have := iterStep_frame now j { b with nonce := 0 }
      rw [← hj] at this
      exact this
    | none =>
      rw [hp] at hEq
      obtain ⟨j, hj⟩ := minePhase2_some_iter now _ _ _ _ _ hEq
      have hb1 := minePhase1_none_iter now _ _ _ _ hp
      have h1 := iterStep_frame now maxIters { b with nonce := 0 }
      rw [← hb1] at h1
      have h2 := iterStep_frame now j b1
      rw [← hj] at h2
      exact ⟨h2.1.trans h1.1, h2.2.1.trans h1.2.1, h2.2.2.trans h1.2.2⟩

/-- At difficulty 0 the very first iteration returns: the empty target is
a prefix of every hash, the nonce stays at its reset value 0 and the
timestamp is untouched. -/
theorem mine_zero_first (b : Block) (maxIters now fuel : Nat) (hmi : 1 ≤ maxIters) :
    mine b 0 maxIters now fuel =
      some ({ b with nonce := 0 }, Block.hash { b with nonce := 0 }) := by
  cases maxIters with
  | zero => omega
  | succ k =>
    have hpre : strStartsWith (Block.hash { b with nonce := 0 }) (zeroString 0) = true := by
      simp [strStartsWith, zeroString]
    unfold mine
    rw [minePhase1_found now (zeroString 0) k _ hpre]

/-- If some state of the search sequence at or beyond the bounded budget
meets the relaxed fallback target, `mine` terminates. -/
theorem mine_terminates_of_hit (b : Block) (zeros maxIters now n : Nat)
    (hn : maxIters ≤ n)
    (hs : strStartsWith (iterStep now n { b with nonce := 0 }).hash
            (zeroString (max (zeros - 1) 1)) = true) :
    MineTerminates b zeros maxIters now := by
  cases hp : minePhase1 now (zeroString zeros) maxIters { b with nonce := 0 } with
  | mk b1 o =>
    cases o with
    | some h1 =>
      exact ⟨0, by unfold mine; rw [hp]; rfl⟩
    | none =>
      have hb1 := minePhase1_none_iter now _ _ _ _ hp
      have hiter : iterStep now (n - maxIters) b1 = iterStep now n { b with nonce := 0 } := by
        rw [hb1, iterStep_add]
        congr 1
        omega
      rw [← hiter] at hs
      obtain ⟨f, hf⟩ := minePhase2_isSome_of_iter now _ _ _ hs
      exact ⟨f, by unfold mine; rw [hp]; exact hf⟩

/-- At a difficulty whose relaxed fallback target is still longer than
the 64-character hash (66 or more), neither loop can ever succeed. -/
theorem mine_never_returns (b : Block) (zeros maxIters now : Nat) (hz : 66 ≤ zeros) :
    ¬ MineTerminates b zeros maxIters now := by
  rintro ⟨fuel, hf⟩
  rw [Option.isSome_iff_exists] at hf
  obtain ⟨⟨b', h⟩, hEq⟩ := hf
  obtain ⟨hh, hor⟩ := mine_some_spec b zeros maxIters now fuel b' h hEq
  subst hh
  have hlen1 : 64 < (zeroString zeros).data.length := by
    simp only [zeroString, List.length_replicate]
    omega
  have hlen2 : 64 < (zeroString (max (zeros - 1) 1)).data.length := by
    simp only [zeroString, List.length_replicate]
    omega
  cases hor with
  | inl h1 => rw [startsWith_false_of_long b' _ hlen1] at h1; exact Bool.false_ne_true h1
  | inr h2 => rw [startsWith_false_of_long b' _ hlen2] at h2; exact Bool.false_ne_true h2

/-! ## Behaviour of `make_genesis` -/

theorem genesisLoop_spec : ∀ (fuel : Nat) (g g' : Block), genesisLoop fuel g = some g' →
    g'.index = g.index ∧ g'.prev = g.prev ∧ g'.entry = g.entry ∧
      strStartsWith g'.hash (zeroString 2) = true := by
  intro fuel
  induction fuel with
  | zero => intro g g' hEq; simp [genesisLoop] at hEq
  | succ k ih =>
    intro g g' hEq
    cases hc : strStartsWith g.hash (zeroString 2) with
    | true =>
      simp only [genesisLoop, hc, if_true, Option.some.injEq] at hEq
      subst hEq
      exact ⟨rfl, rfl, rfl, hc⟩
    | false =>
      simp only [genesisLoop, hc, Bool.false_eq_true, if_false] at hEq
      obtain ⟨h1, h2, h3, h4⟩ := ih _ _ hEq
      exact ⟨h1, h2, h3, h4⟩

/-- Whenever `make_genesis` returns: index 0, all-zero previous hash, the
fixed system payload (timestamped at creation), and a hash meeting the
fixed 2-zero genesis target. -/
theorem make_genesis_spec (now fuel : Nat) (g : Block) (hEq : make_genesis now fuel = some g) :
    g.index = 0 ∧ g.prev = zeroString 64 ∧
      g.entry = { author := "system", text := "genesis", ts := now } ∧
      strStartsWith g.hash (zeroString 2) = true := by
  unfold make_genesis at hEq
  exact genesisLoop_spec fuel _ g hEq

/-! ## Behaviour of `valid_chain` -/

/-- Whole-chain validity, unfolded one level at the head: exactly the
genesis-specific conditions of the loop's `i == 0` arm, conjoined with
the rest of the walk. -/
theorem valid_chain_cons (g : Block) (rest : List Block) :
    (valid_chain (g :: rest) = true) ↔
      ((g.prev = zeroString 64 ∧ strStartsWith g.hash (zeroString 2) = true) ∧
        restOk g rest = true) := by
  simp [valid_chain, Bool.and_eq_true, beq_iff_eq, and_assoc]

theorem valid_chain_nil : valid_chain [] = false := rfl

/-! ## Behaviour of the Add handler -/

/-- Empty or whitespace-only text is rejected: for every fuel (in
particular fuel 0, i.e. before any mining work), the handler returns
`none` and no extended chain exists. -/
theorem append_entry_rejects (chain : List Block) (author text : String)
    (dz now fuel : Nat) (hne : chain ≠ []) (ht : pyStrip text = "") :
    append_entry chain author text dz now fuel hne = none := by
  simp [append_entry, ht]

/-- Successful appends: the result is the input chain extended by the
mined block, whose index is the old length, whose previous hash is the
tip's recomputed hash, and whose payload is the stripped text with the
(possibly defaulted) stripped author, all fields as built by the
handler. -/
theorem append_entry_some (chain : List Block) (author text : String)
    (dz now fuel : Nat) (hne : chain ≠ []) (chain' : List Block) (b : Block)
    (hEq : append_entry chain author text dz now fuel hne = some (chain', b)) :
    chain' = chain ++ [b] ∧ b.index = chain.length ∧
      b.prev = (chain.getLast hne).hash ∧
      b.entry = { author := pyStrip (pyOr author "Student"), text := pyStrip text, ts := now } := by
  unfold append_entry at hEq
  split at hEq
  · split at hEq
    next blk2 h2 hm =>
      rw [Option.some.injEq, Prod.mk.injEq] at hEq
      obtain ⟨rfl, rfl⟩ := hEq
      obtain ⟨hi, hp, he⟩ := mine_frame _ _ _ _ _ _ _ hm
      exact ⟨rfl, hi, hp, he⟩
    next hm => exact absurd hEq (by simp)
  · exact absurd hEq (by simp)

/-! ## Concrete hash computations, each kernel-checked once -/

theorem hash_gB : gB.hash = gBhash := by decide

theorem hash_adaCand :
    adaCand.hash = "20ef59de989c87ce48ce45ca152a58213ddc1b3af78e7146a2ed2421580f2c2e" := by decide

theorem hash_adaB : adaB.hash = adaHash := by decide

theorem hash_b5 : b5.hash = b5hash := by decide

theorem hash_cb : cb.hash = cbHash := by decide

theorem hash_stuCand :
    stuCand.hash = "2c5d89f770a7aaf6e408452d660b8db65b76907a4e58b657f740bd19af5a9c64" := by decide

theorem hash_stuB : stuB.hash = stuHash := by decide

/-! ## Concrete runs of the loops, assembled from the step lemmas -/

theorem genesisLoop_found (k : Nat) (g : Block)
    (h : strStartsWith g.hash (zeroString 2) = true) :
    genesisLoop (k + 1) g = some g := by
  simp [genesisLoop, h]

/-- At session start `tG`, `make_genesis` succeeds immediately at
nonce 0 and produces `gB`. -/
theorem make_genesis_tG : make_genesis tG 1 = some gB := by
  have h1 : strStartsWith gB.hash (zeroString 2) = true := by
    rw [hash_gB]; decide
  show genesisLoop 1 gB = some gB
  rw [show (1 : Nat) = 0 + 1 from rfl, genesisLoop_found 0 gB h1]

/-- The C1 mining run: miss at nonce 0, success at nonce 1. -/
theorem mine_ada : mine adaCand 2 5000000 tAda 0 = some (adaB, adaHash) := by
  have h0 : strStartsWith adaCand.hash (zeroString 2) = false := by
    rw [hash_adaCand]; decide
  have hstep : mineStep tAda adaCand = adaB := by decide
  have h1 : strStartsWith adaB.hash (zeroString 2) = true := by
    rw [hash_adaB]; decide
  unfold mine
  rw [show ({ adaCand with nonce := 0 } : Block) = adaCand from rfl]
  rw [show (5000000 : Nat) = 4999999 + 1 from rfl,
      minePhase1_miss tAda (zeroString 2) 4999999 adaCand h0, hstep,
      show (4999999 : Nat) = 4999998 + 1 from rfl,
      minePhase1_found tAda (zeroString 2) 4999998 adaB h1, hash_adaB]

/-- The C9-witness mining run at difficulty 1: miss at nonce 0, success
at nonce 1. -/
theorem mine_student : mine stuCand 1 5000000 tStu 0 = some (stuB, stuHash) := by
  have h0 : strStartsWith stuCand.hash (zeroString 1) = false := by
    rw [hash_stuCand]; decide
  have hstep : mineStep tStu stuCand = stuB := by decide
  have h1 : strStartsWith stuB.hash (zeroString 1) = true := by
    rw [hash_stuB]; decide
  unfold mine
  rw [show ({ stuCand with nonce := 0 } : Block) = stuCand from rfl]
  rw [show (5000000 : Nat) = 4999999 + 1 from rfl,
      minePhase1_miss tStu (zeroString 1) 4999999 stuCand h0, hstep,
      show (4999999 : Nat) = 4999998 + 1 from rfl,
      minePhase1_found tStu (zeroString 1) 4999998 stuB h1, hash_stuB]

/-- At difficulty 0 the search accepts `cb` at once. -/
theorem mine_cb_eq : mine cb 0 1 tCb 0 = some (cb, cbHash) := by
  rw [← hash_cb]
  exact mine_zero_first cb 1 tCb 0 (by norm_num)

/-- The C1 scenario's append: `append_entry` on the fresh chain with
Ada's entry at difficulty 2 returns the chain extended by `adaB`. -/
theorem append_ada :
    append_entry [gB] "Ada" "Learned proof of work" 2 tAda 0 (List.cons_ne_nil gB []) =
      some ([gB, adaB], adaB) := by
  unfold append_entry
  rw [if_pos (by decide : pyStrip "Learned proof of work" ≠ "")]
  rw [show List.getLast [gB] (List.cons_ne_nil gB []) = gB from rfl, hash_gB]
  rw [show ({ index := ([gB] : List Block).length, ts := tAda, prev := gBhash,
              entry := { author := pyStrip (pyOr "Ada" "Student"),
                         text := pyStrip "Learned proof of work", ts := tAda },
              nonce := 0 } : Block) = adaCand from by decide]
  rw [mine_ada]
  rfl

/-- The C9-witness append: empty author, text "hello", difficulty 1. -/
theorem append_student :
    append_entry [gB] "" "hello" 1 tStu 0 (List.cons_ne_nil gB []) =
      some ([gB, stuB], stuB) := by
  unfold append_entry
  rw [if_pos (by decide : pyStrip "hello" ≠ "")]
  rw [show List.getLast [gB] (List.cons_ne_nil gB []) = gB from rfl, hash_gB]
  rw [show ({ index := ([gB] : List Block).length, ts := tStu, prev := gBhash,
              entry := { author := pyStrip (pyOr "" "Student"),
                         text := pyStrip "hello", ts := tStu },
              nonce := 0 } : Block) = stuCand from by decide]
  rw [mine_student]
  rfl

/-! ## Claims -/

/-- C1: the spec's scenario expects that on a fresh chain,
`append_entry(chain, "Ada", "Learned proof of work", 2)` yields a block
with index 1 whose previous hash equals the genesis hash and whose
returned hash starts with "00", and that validating the chain afterwards
returns true.  At the concrete session times `tG` and `tAda` the first
three expectations hold, but `valid_chain` returns `false`: the
validator checks every non-genesis block against the fixed
`DIFFICULTY_ZEROS = 3` target, while the handler mined at the
user-selected difficulty 2 and stopped at a hash with exactly two
leading zeros. -/
theorem claim_C1_scenario :
    make_genesis tG 1 = some gB ∧
    append_entry [gB] "Ada" "Learned proof of work" 2 tAda 0 (List.cons_ne_nil gB []) =
      some ([gB, adaB], adaB) ∧
    adaB.index = 1 ∧
    adaB.prev = gB.hash ∧
    strStartsWith adaHash (zeroString 2) = true ∧
    valid_chain [gB, adaB] = false := by
  refine ⟨make_genesis_tG, append_ada, rfl, ?_, by decide, ?_⟩
  · rw [hash_gB]; rfl
  · have h3 : strStartsWith adaB.hash (zeroString DIFFICULTY_ZEROS) = false := by
      rw [hash_adaB]; decide
    simp [valid_chain, restOk, blockOk, h3]

/-- C2 counterexample: the validator never inspects `index`, so a chain
whose head carries index 5 is accepted as long as the sentinel and the
2-zero hash condition hold; the accepted position-0 block violates the
claimed `index = position` property. -/
theorem claim_C2_counterexample : valid_chain [b5] = true ∧ b5.index ≠ 0 := by
  constructor
  · have h2 : strStartsWith b5.hash (zeroString 2) = true := by
      rw [hash_b5]; decide
    have h1 : (b5.prev == zeroString 64) = true := by decide
    simp [valid_chain, restOk, h1, h2]
  · decide

/-- C2 (amended): chains built by the application flow do have gapless
indices: `make_genesis` yields index 0, and a successful `append_entry`
on a chain whose block at every position `i` has index `i` yields a
chain with the same property (the new block gets index = old length). -/
theorem claim_C2_indices :
    (∀ now fuel g, make_genesis now fuel = some g →
      ∀ i, (hi : i < ([g] : List Block).length) → ([g])[i].index = i) ∧
    (∀ chain author text dz now fuel hne chain' b,
      (∀ i, (hi : i < (chain : List Block).length) → chain[i].index = i) →
      append_entry chain author text dz now fuel hne = some (chain', b) →
      ∀ i, (hi : i < chain'.length) → chain'[i].index = i) := by
  constructor
  · intro now fuel g hg i hi
    have h0 := (make_genesis_spec now fuel g hg).1
    have hi0 : i = 0 := by simp at hi; omega
    subst hi0
    simpa using h0
  · intro chain author text dz now fuel hne chain' b hidx hEq i hi
    obtain ⟨hc, hbi, _, _⟩ := append_entry_some chain author text dz now fuel hne chain' b hEq
    subst hc
    by_cases hlt : i < chain.length
    · rw [List.getElem_append_left hlt]
      exact hidx i hlt
    · have hieq : i = chain.length := by
        rw [List.length_append] at hi
        simp at hi
        omega
      rw [List.getElem_concat_length chain b i hieq]
      rw [hbi, hieq]

/-- C2 witness: the index invariant applied to the concrete C1 run: the
fresh chain `[gB]` satisfies it and the successful Ada append preserves
it. -/
theorem claim_C2_witness :
    (∀ i, (hi : i < ([gB] : List Block).length) → ([gB])[i].index = i) ∧
    append_entry [gB] "Ada" "Learned proof of work" 2 tAda 0 (List.cons_ne_nil gB []) =
      some ([gB, adaB], adaB) ∧
    (∀ i, (hi : i < ([gB, adaB] : List Block).length) → ([gB, adaB])[i].index = i) :=
  ⟨by decide, append_ada,
    claim_C2_indices.2 [gB] "Ada" "Learned proof of work" 2 tAda 0
      (List.cons_ne_nil gB []) [gB, adaB] adaB (by decide) append_ada⟩

/-- C3: whenever `mine` returns, the returned string is the candidate's
recomputed hash, and it starts with either `difficulty` leading zeros
(success in the bounded first loop) or `max(difficulty - 1, 1)` leading
zeros (success in the relaxed fallback loop); for difficulty 3 these are
"000" and "00". -/
theorem claim_C3_mine_returns_hash (b : Block) (zeros maxIters now fuel : Nat)
    (b' : Block) (h : String)
    (hEq : mine b zeros maxIters now fuel = some (b', h)) :
    h = b'.hash ∧
      (strStartsWith h (zeroString zeros) = true ∨
        strStartsWith h (zeroString (max (zeros - 1) 1)) = true) :=
  mine_some_spec b zeros maxIters now fuel b' h hEq

/-- C3 witness: the difficulty-0 run on `cb` returns its nonce-0 hash. -/
theorem claim_C3_witness :
    mine cb 0 1 tCb 0 = some (cb, cbHash) ∧
    (cbHash = cb.hash ∧
      (strStartsWith cbHash (zeroString 0) = true ∨
        strStartsWith cbHash (zeroString (max (0 - 1) 1)) = true)) :=
  ⟨mine_cb_eq, claim_C3_mine_returns_hash cb 0 1 tCb 0 cb cbHash mine_cb_eq⟩

/-- C4: whenever `make_genesis` returns it yields index 0, the 64-zero
sentinel as previous hash, the fixed system payload entry (with the
creation timestamp), and a hash starting with two zero characters; the
function takes no difficulty argument at all, so this holds regardless
of the chain's configured difficulty. -/
theorem claim_C4_genesis (now fuel : Nat) (g : Block)
    (hEq : make_genesis now fuel = some g) :
    g.index = 0 ∧ g.prev = zeroString 64 ∧
      g.entry = { author := "system", text := "genesis", ts := now } ∧
      strStartsWith g.hash (zeroString 2) = true :=
  make_genesis_spec now fuel g hEq

/-- C4 witness: the genesis block actually produced at time `tG`. -/
theorem claim_C4_witness :
    make_genesis tG 1 = some gB ∧
    (gB.index = 0 ∧ gB.prev = zeroString 64 ∧
      gB.entry = { author := "system", text := "genesis", ts := tG } ∧
      strStartsWith gB.hash (zeroString 2) = true) :=
  ⟨make_genesis_tG, claim_C4_genesis tG 1 gB make_genesis_tG⟩

/-- C5: the empty chain is invalid, and a non-empty chain is valid
exactly when the block at position 0 satisfies the genesis-specific
conditions — previous hash equal to the 64-zero sentinel and a hash
starting with two zeros (the literal `"0" * 2` of the code, independent
of `DIFFICULTY_ZEROS`) — and the walk over the remaining blocks
succeeds. -/
theorem claim_C5_validator_head :
    valid_chain [] = false ∧
    ∀ g rest, (valid_chain (g :: rest) = true ↔
      ((g.prev = zeroString 64 ∧ strStartsWith g.hash (zeroString 2) = true) ∧
        restOk g rest = true)) :=
  ⟨valid_chain_nil, valid_chain_cons⟩

/-- C6 counterexample: the claim quantifies over every difficulty, but at
difficulty 66 both the primary target (66 zeros) and the relaxed
fallback target (65 zeros) are longer than the 64-character hash, so
`mine` can never return: mining exhaustion is reachable by
non-termination. -/
theorem claim_C6_counterexample : ¬ MineTerminates cb 66 1 tCb :=
  mine_never_returns cb 66 1 tCb (by norm_num)

/-- C6 (amended): `mine` exposes no error value, and it does return
whenever the search can succeed: if some state of the search sequence at
or beyond the bounded budget meets the relaxed fallback target, `mine`
terminates; but termination does not hold for every difficulty (at 66 it
never returns, see the counterexample). -/
theorem claim_C6_terminates (b : Block) (zeros maxIters now n : Nat)
    (hn : maxIters ≤ n)
    (hs : strStartsWith (iterStep now n { b with nonce := 0 }).hash
            (zeroString (max (zeros - 1) 1)) = true) :
    MineTerminates b zeros maxIters now :=
  mine_terminates_of_hit b zeros maxIters now n hn hs

/-- Concrete fallback hit for the C6 witness: `cb` itself (zero steps
from the reset candidate) meets the relaxed target "0". -/
theorem hit_cb :
    strStartsWith (iterStep tCb 0 { cb with nonce := 0 }).hash
      (zeroString (max (0 - 1) 1)) = true := by
  show strStartsWith cb.hash (zeroString 1) = true
  rw [hash_cb]; decide

/-- C6 witness: with budget 0 at difficulty 0, the fallback phase
terminates on `cb`. -/
theorem claim_C6_witness :
    (0 ≤ 0 ∧
      strStartsWith (iterStep tCb 0 { cb with nonce := 0 }).hash
        (zeroString (max (0 - 1) 1)) = true) ∧
    MineTerminates cb 0 0 tCb :=
  ⟨⟨Nat.le_refl 0, hit_cb⟩, claim_C6_terminates cb 0 0 tCb 0 (Nat.le_refl 0) hit_cb⟩

/-- C7: `mine` mutates only the candidate's nonce and possibly its
timestamp: whenever it returns, the final block's index, previous hash
and payload entry equal those of the candidate. -/
theorem claim_C7_frame (b : Block) (zeros maxIters now fuel : Nat)
    (b' : Block) (h : String)
    (hEq : mine b zeros maxIters now fuel = some (b', h)) :
    b'.index = b.index ∧ b'.prev = b.prev ∧ b'.entry = b.entry :=
  mine_frame b zeros maxIters now fuel b' h hEq

/-- C7 witness: the concrete Ada mining run only advanced the nonce. -/
theorem claim_C7_witness :
    mine adaCand 2 5000000 tAda 0 = some (adaB, adaHash) ∧
    (adaB.index = adaCand.index ∧ adaB.prev = adaCand.prev ∧
      adaB.entry = adaCand.entry) :=
  ⟨mine_ada, claim_C7_frame adaCand 2 5000000 tAda 0 adaB adaHash mine_ada⟩

/-- C8: hashing is deterministic and pure — in this embedding
`Block.hash` is a function of the block's fields, so recomputing it
without mutation is literally the same value — and every hash of every
block is a 64-character string of lowercase hexadecimal characters. -/
theorem claim_C8_hash_deterministic (b : Block) :
    b.hash = b.hash ∧ (b.hash).data.length = 64 ∧
      ((b.hash).data.all (fun c => "0123456789abcdef".data.contains c)) = true :=
  ⟨rfl, hash_length b, sha256_hex_all _⟩

/-- C9: empty or whitespace-only text is rejected — for every fuel, in
particular fuel 0, i.e. before any mining work, the handler returns
`none` and no extended chain is produced — while an empty author string
is replaced by the placeholder "Student" in the appended block's
payload. -/
theorem claim_C9_input_validation :
    (∀ chain author text dz now fuel hne, pyStrip text = "" →
      append_entry chain author text dz now fuel hne = none) ∧
    (∀ chain text dz now fuel hne chain' b,
      append_entry chain "" text dz now fuel hne = some (chain', b) →
      b.entry.author = "Student") := by
  constructor
  · intro chain author text dz now fuel hne ht
    exact append_entry_rejects chain author text dz now fuel hne ht
  · intro chain text dz now fuel hne chain' b hEq
    obtain ⟨_, _, _, he⟩ := append_entry_some chain "" text dz now fuel hne chain' b hEq
    rw [he]
    show pyStrip (pyOr "" "Student") = "Student"
    decide

/-- C9 witness: whitespace-only text is rejected on the concrete fresh
chain, and the concrete empty-author append stores author "Student". -/
theorem claim_C9_witness :
    (pyStrip "   " = "" ∧
      append_entry [gB] "Ada" "   " 2 tCb 0 (List.cons_ne_nil gB []) = none) ∧
    (append_entry [gB] "" "hello" 1 tStu 0 (List.cons_ne_nil gB []) =
        some ([gB, stuB], stuB) ∧
      stuB.entry.author = "Student") :=
  ⟨⟨by decide,
    claim_C9_input_validation.1 [gB] "Ada" "   " 2 tCb 0 (List.cons_ne_nil gB []) (by decide)⟩,
   ⟨append_student,
    claim_C9_input_validation.2 [gB] "hello" 1 tStu 0 (List.cons_ne_nil gB [])
      [gB, stuB] stuB append_student⟩⟩

/-- C10: at difficulty 0 the target is the empty string, which every
hash satisfies, so for any budget of at least one iteration `mine`
returns on the very first check: the nonce is left at its reset value 0
and the timestamp is unchanged (the returned block is the candidate with
nonce 0), and the returned value is that block's hash. -/
theorem claim_C10_zero_difficulty (b : Block) (maxIters now fuel : Nat)
    (hmi : 1 ≤ maxIters) :
    mine b 0 maxIters now fuel =
      some ({ b with nonce := 0 }, Block.hash { b with nonce := 0 }) :=
  mine_zero_first b maxIters now fuel hmi

/-- C10 witness: the concrete difficulty-0 run on `cb` with budget 1. -/
theorem claim_C10_witness :
    1 ≤ 1 ∧
    mine cb 0 1 tCb 0 =
      some ({ cb with nonce := 0 }, Block.hash { cb with nonce := 0 }) :=
  ⟨Nat.le_refl 1, claim_C10_zero_difficulty cb 1 tCb 0 (Nat.le_refl 1)⟩
